import Mathlib

/-!
FGTS Digital batch driver: a shallow embedding of `src/index.js`.

JavaScript strings are sequences of UTF-16 code units; they are embedded as
lists of natural numbers (one number per code unit).  Regular-expression
replacements, `slice`, `trim` and `includes` all act on code units, so the
embedding follows the source operation by operation.

Calls into the browser, the file system and the clock are embedded as explicit
oracles: a function of the position of the call that gives its outcome, so that
a statement quantified over the oracle covers every behaviour of the collaborator.
-/

set_option autoImplicit false

namespace FgtsDigital

/-! ## Strings -/

/-- A JavaScript string: its UTF-16 code units. -/
abbrev JSString := List Nat

/-- Code units of an ASCII literal. -/
def lit (s : String) : JSString := s.toList.map Char.toNat

/-- The underscore, `_`. -/
def underscore : Nat := 95

/-- The character class `[<>:"/\\|?*\x00-\x1F]` of `sanitizeFilePart`. -/
def isIllegalChar (c : Nat) : Bool :=
  c == 60 || c == 62 || c == 58 || c == 34 || c == 47 || c == 92 || c == 124 ||
    c == 63 || c == 42 || decide (c ≤ 31)

/-- The class `\s` of ECMAScript regular expressions (WhiteSpace and
LineTerminator code points); `String.prototype.trim` strips the same set. -/
def isWhitespace (c : Nat) : Bool :=
  c == 9 || c == 10 || c == 11 || c == 12 || c == 13 || c == 32 || c == 160 ||
    c == 5760 || (decide (8192 ≤ c) && decide (c ≤ 8202)) || c == 8232 || c == 8233 ||
    c == 8239 || c == 8287 || c == 12288 || c == 65279

/-- The class `_`. -/
def isUnderscore (c : Nat) : Bool := c == underscore

/-- The class `\d`. -/
def isDigit (c : Nat) : Bool := decide (48 ≤ c) && decide (c ≤ 57)

/-- Scanner for `.replace(/X+/g, '_')`: `inRun` tells whether the previous
code unit belonged to the run being replaced. -/
def replaceRunsAux (p : Nat → Bool) : Bool → JSString → JSString
  | _, [] => []
  | inRun, c :: cs =>
    if p c then
      (if inRun then replaceRunsAux p true cs else underscore :: replaceRunsAux p true cs)
    else c :: replaceRunsAux p false cs

/-- The replacement `.replace(/X+/g, '_')`: every maximal run of code units of
the class becomes one underscore. -/
def replaceRuns (p : Nat → Bool) (s : JSString) : JSString := replaceRunsAux p false s

/-- The replacement `.replace(/^_+|_+$/g, '')`. -/
def trimUnderscores (s : JSString) : JSString :=
  ((s.dropWhile isUnderscore).reverse.dropWhile isUnderscore).reverse

/-- `String.prototype.trim`. -/
def trim (s : JSString) : JSString :=
  ((s.dropWhile isWhitespace).reverse.dropWhile isWhitespace).reverse

/-- `String.prototype.includes`. -/
def includes (s pat : JSString) : Bool := decide (pat <:+: s)

/-- `sanitizeFilePart(value)` for a string `value`. -/
def sanitizeFilePart (value : JSString) : JSString :=
  let v := if value = [] then lit "sem_nome" else value
  let s1 := v.map (fun c => if isIllegalChar c then underscore else c)
  let s2 := replaceRuns isWhitespace s1
  let s3 := replaceRuns isUnderscore s2
  let s4 := trimUnderscores s3
  s4.take 140

/-- `onlyDigits(value)` for a string `value`: `.replace(/\D/g, '')`. -/
def onlyDigits (value : JSString) : JSString := value.filter isDigit

/-- No two adjacent underscores. -/
def NoDoubleUnderscore (s : JSString) : Prop :=
  List.Chain' (fun a b => ¬ (a = underscore ∧ b = underscore)) s

/-! ## Reading the work list (`readCnpjDataFromExcel`) -/

/-- The two Unicode built-ins used by `normalizeText`, taken as parameters:
`String.prototype.normalize('NFD')` and `String.prototype.toLowerCase`. -/
structure JSBuiltins where
  nfd : JSString → JSString
  toLowerCase : JSString → JSString

/-- The class `[\u0300-\u036f]` (combining diacritical marks). -/
def isCombiningMark (c : Nat) : Bool := decide (768 ≤ c) && decide (c ≤ 879)

/-- The expression `String(value || dflt)` for a cell `value` that is a string or `undefined`
(`none`): the default replaces `undefined` and the empty string. -/
def stringOr (value : Option JSString) (dflt : JSString) : JSString :=
  match value with
  | none => dflt
  | some s => if s = [] then dflt else s

/-- `normalizeText(value)` for a string `value` (`String(value || '')` is then `value`). -/
def normalizeText (js : JSBuiltins) (value : JSString) : JSString :=
  trim (js.toLowerCase ((js.nfd value).filter (fun c => !isCombiningMark c)))

/-- A row of `sheet_to_json`: the cells under the four inferred columns (`none` when the row
object has no such key, as for a column that `pickColumn` did not find). -/
structure Row where
  tipoFolha : Option JSString
  cnpj : Option JSString
  analista : Option JSString
  empresa : Option JSString

/-- A work item `{ cnpj, analista, empresa }`. -/
structure Company where
  cnpj : JSString
  analista : JSString
  empresa : JSString
deriving DecidableEq, Repr

/-- Lines 133-149 of the row loop: `none` when one of the three `continue` statements of the
filtering stage skips the row, otherwise the work item the row would contribute. -/
def rowCandidate (js : JSBuiltins) (row : Row) : Option Company :=
  let tipoFolhaValue := normalizeText js (stringOr row.tipoFolha [])
  if !includes tipoFolhaValue (lit "com funcion") then none
  else
    let cnpjRaw := trim (stringOr row.cnpj [])
    if cnpjRaw = [] || includes (normalizeText js cnpjRaw) (lit "procv") then none
    else
      let cnpjDigits := onlyDigits cnpjRaw
      if cnpjDigits.length ≠ 14 then none
      else
        let analista0 := trim (stringOr row.analista (lit "Desconhecido"))
        let analista := if analista0 = [] then lit "Desconhecido" else analista0
        let empresa0 := trim (stringOr row.empresa cnpjDigits)
        let empresa := if empresa0 = [] then cnpjDigits else empresa0
        some { cnpj := cnpjDigits, analista := analista, empresa := empresa }

/-- The template string of `dedupeKey`, with `cnpj` and `analista` filled in. -/
def dedupeKey (c : Company) : JSString := c.cnpj ++ lit "::" ++ c.analista

/-- State of the row loop: the array `data` and the set `seen`. -/
structure ReadState where
  data : List Company
  seen : List JSString

/-- One iteration of `for (const row of rows)`. -/
def readRow (js : JSBuiltins) (st : ReadState) (row : Row) : ReadState :=
  match rowCandidate js row with
  | none => st
  | some c =>
    if dedupeKey c ∈ st.seen then st
    else { data := st.data ++ [c], seen := st.seen ++ [dedupeKey c] }

/-- The array `data` after the row loop (lines 129-158). -/
def collectRows (js : JSBuiltins) (rows : List Row) : List Company :=
  (rows.foldl (readRow js) { data := [], seen := [] }).data

/-- The part of `readCnpjDataFromExcel` after the rows are read from the sheet: it throws on
an empty sheet and on an empty work list. -/
def readCnpjData (js : JSBuiltins) (sheetName : JSString) (rows : List Row) :
    Except JSString (List Company) :=
  if rows.isEmpty then
    .error (lit "Aba \x27" ++ sheetName ++ lit "\x27 esta vazia (apos cabecalho na linha 4).")
  else
    let data := collectRows js rows
    if data.isEmpty then
      .error (lit "Nenhum CNPJ valido encontrado com tipo folha \"com funcionario\".")
    else .ok data

/-- Two work items with the same `(cnpj, analista)`. -/
def SamePair (c d : Company) : Prop := c.cnpj = d.cnpj ∧ c.analista = d.analista

instance (c d : Company) : Decidable (SamePair c d) := by
  unfold SamePair; exact inferInstance

/-- The work list as the specification words it: going through the filter-passing rows in
row order, an entry is kept exactly when no earlier filter-passing row has the same
`(cnpj, analista)`.  `earlier` holds the entries already gone through. -/
def keepFirstAux (earlier : List Company) : List Company → List Company
  | [] => []
  | c :: cs =>
    if ∃ d ∈ earlier, SamePair d c then keepFirstAux (earlier ++ [c]) cs
    else c :: keepFirstAux (earlier ++ [c]) cs

/-- First occurrence of each `(cnpj, analista)` among the entries, in order. -/
def keepFirst (l : List Company) : List Company := keepFirstAux [] l

/-! ## Unique download paths (`makeUniquePath`) -/

/-- The functions of Node's `path` module used by `makeUniquePath`, taken as parameters
(the module is `path.posix` or `path.win32`, by platform). -/
structure PathModule where
  dirname : JSString → JSString
  extname : JSString → JSString
  basename : JSString → JSString → JSString
  join : JSString → JSString → JSString

/-- The segments of a path between its `/` separators. -/
def splitSlash : JSString → List JSString
  | [] => [[]]
  | c :: cs =>
    if c = 47 then [] :: splitSlash cs
    else
      match splitSlash cs with
      | s :: ss => (c :: s) :: ss
      | [] => [[c]]

/-- The last component of a path, trailing `/` separators ignored. -/
def lastComponent (path : JSString) : JSString :=
  ((path.reverse.dropWhile (fun c => c == 47)).takeWhile (fun c => c != 47)).reverse

/-- The segment pass of `path.posix.normalize`: empty and `.` segments are dropped, a `..`
segment removes the segment before it, or is kept when there is none to remove and the path is
relative (`allowAboveRoot`).  `stack` holds the segments kept so far, last first. -/
def normalizeSegments (allowAboveRoot : Bool) : List JSString → List JSString → List JSString
  | [], stack => stack.reverse
  | s :: rest, stack =>
    if s = [] ∨ s = [46] then normalizeSegments allowAboveRoot rest stack
    else if s = [46, 46] then
      match stack with
      | top :: below =>
        if top = [46, 46] then
          normalizeSegments allowAboveRoot rest (if allowAboveRoot then s :: stack else stack)
        else normalizeSegments allowAboveRoot rest below
      | [] => normalizeSegments allowAboveRoot rest (if allowAboveRoot then [s] else [])
    else normalizeSegments allowAboveRoot rest (s :: stack)

/-- `path.posix.normalize(path)`. -/
def posixNormalize (path : JSString) : JSString :=
  if path = [] then [46]
  else
    let isAbsolute := path.head? = some 47
    let trailingSeparator := path.getLast? = some 47
    let p := [47].intercalate (normalizeSegments (!isAbsolute) (splitSlash path) [])
    if p = [] then
      if isAbsolute then [47] else if trailingSeparator then [46, 47] else [46]
    else
      let q := if trailingSeparator then p ++ [47] else p
      if isAbsolute then 47 :: q else q

/-- `path.posix.join(a, b)`: the non-empty arguments joined with `/`, then normalized. -/
def posixJoin (a b : JSString) : JSString :=
  if a = [] then (if b = [] then [46] else posixNormalize b)
  else if b = [] then posixNormalize a
  else posixNormalize (a ++ [47] ++ b)

/-- `path.posix.dirname(path)`: the path up to the `/` that precedes its last component. -/
def posixDirname (path : JSString) : JSString :=
  if path = [] then [46]
  else
    let hasRoot := path.head? = some 47
    let rest := ((path.drop 1).reverse.dropWhile (fun c => c == 47)).dropWhile (fun c => c != 47)
    if rest = [] then (if hasRoot then [47] else [46])
    else if hasRoot ∧ rest.length = 1 then [47, 47]
    else path.take rest.length

/-- `path.posix.extname(path)`: from the last `.` of the last component to its end; empty
when that component has no `.`, starts with its only `.`, or is `..`. -/
def posixExtname (path : JSString) : JSString :=
  let name := lastComponent path
  if 46 ∈ name then
    let ext := 46 :: (name.reverse.takeWhile (fun c => c != 46)).reverse
    if name.length = ext.length ∨ name = [46, 46] then [] else ext
  else []

/-- `path.posix.basename(path, suffix)`: the last component, without `suffix` when it ends
with it and is longer than it. -/
def posixBasename (path suffix : JSString) : JSString :=
  let name := lastComponent path
  if suffix ≠ [] ∧ suffix.length ≤ path.length then
    if suffix = path then []
    else if name = [] then path
    else if name = suffix then name
    else if suffix <:+ name then name.take (name.length - suffix.length)
    else if name <:+ suffix then
      path.drop ((path.reverse.dropWhile (fun c => c == 47)).length - name.length)
    else name
  else name

/-- The path functions of Node on a POSIX system (`path.posix`). -/
def posixPath : PathModule :=
  { dirname := posixDirname, extname := posixExtname, basename := posixBasename,
    join := posixJoin }

/-- The text of a non-negative integer in a template literal: its decimal digits. -/
def decimal (n : Nat) : JSString :=
  if n = 0 then [48] else (Nat.digits 10 n).reverse.map (fun d => d + 48)

/-- The state of the file system: the finite set of paths that exist. -/
abbrev FileSystem := List JSString

/-- The file name of the candidate after `attempt` increments: `base + ext`, the name of the
path itself, then the template string `base_attempt ext`. -/
def candidateName (P : PathModule) (filePath : JSString) (attempt : Nat) : JSString :=
  if attempt = 0 then P.basename filePath (P.extname filePath) ++ P.extname filePath
  else
    P.basename filePath (P.extname filePath) ++ [underscore] ++ decimal attempt ++
      P.extname filePath

/-- The value of `candidate` after `attempt` increments:
the path itself, then `path.join(dir, base_attempt ext)`. -/
def candidatePath (P : PathModule) (filePath : JSString) (attempt : Nat) : JSString :=
  if attempt = 0 then filePath
  else
    P.join (P.dirname filePath)
      (P.basename filePath (P.extname filePath) ++ [underscore] ++ decimal attempt ++
        P.extname filePath)

/-- The loop `while (true)` of `makeUniquePath`, with the number of iterations bounded by
`fuel` (`none` when the bound is reached); `fs.access(candidate)` resolves exactly when the
candidate exists. -/
def makeUniquePathLoop (P : PathModule) (fs : FileSystem) (filePath : JSString) :
    Nat → Nat → JSString → Option JSString
  | 0, _, _ => none
  | fuel + 1, attempt, candidate =>
    if candidate ∈ fs then
      makeUniquePathLoop P fs filePath fuel (attempt + 1)
        (P.join (P.dirname filePath)
          (P.basename filePath (P.extname filePath) ++ [underscore] ++ decimal (attempt + 1) ++
            P.extname filePath))
    else some candidate

/-- `makeUniquePath(filePath)` in the file system state `fs`. -/
def makeUniquePath (P : PathModule) (fs : FileSystem) (filePath : JSString) (fuel : Nat) :
    Option JSString :=
  makeUniquePathLoop P fs filePath fuel 0 filePath

/-- The file system after `n` successive calls of `makeUniquePath(filePath)`, the path each
call returns being created (`download.saveAs`) before the next call. -/
def afterSaves (P : PathModule) (filePath : JSString) (fuel : Nat) :
    Nat → FileSystem → Option FileSystem
  | 0, fs => some fs
  | n + 1, fs =>
    match afterSaves P filePath fuel n fs with
    | none => none
    | some fs1 =>
      match makeUniquePath P fs1 filePath fuel with
      | none => none
      | some r => some (r :: fs1)

/-! ## The checkbox step (`uncheckRescisorio`) -/

/-- What the page answers about the checkbox `input[name="carregarDebitoRescisorio"]`.
`attached` tells whether `waitFor({ state: 'attached' })` resolves within the timeout (the
checkbox is in the page); a probe answers `none` when its promise rejects. -/
structure CheckboxPage where
  attached : Bool
  isVisible : Option Bool
  isDisabled : Option Bool
  isChecked : Option Bool
  uncheckResolves : Bool

/-- The calls `uncheckRescisorio` makes on the locator. -/
inductive CheckboxCall
  | waitForAttached
  | isVisible
  | isDisabled
  | isChecked
  | uncheck
deriving DecidableEq, Repr

/-- The expression `await probe.catch(() => dflt)`. -/
def orCatch (probe : Option Bool) (dflt : Bool) : Bool :=
  match probe with
  | some b => b
  | none => dflt

/-- `uncheckRescisorio(page)`: the calls issued, and whether it resolves (`ok`) or throws. -/
def uncheckRescisorio (page : CheckboxPage) : List CheckboxCall × Except JSString Unit :=
  if !page.attached then
    ([.waitForAttached], .error (lit "locator.waitFor: Timeout exceeded"))
  else
    let visible := orCatch page.isVisible false
    if !visible then ([.waitForAttached, .isVisible], .ok ())
    else
      let disabled := orCatch page.isDisabled true
      let checked := orCatch page.isChecked false
      if !disabled && checked then
        ([.waitForAttached, .isVisible, .isDisabled, .isChecked, .uncheck],
          if page.uncheckResolves then .ok () else .error (lit "locator.uncheck: failed"))
      else ([.waitForAttached, .isVisible, .isDisabled, .isChecked], .ok ())

/-- A page from which the checkbox is absent. -/
def absentCheckbox : CheckboxPage :=
  { attached := false, isVisible := some false, isDisabled := none, isChecked := none,
    uncheckResolves := true }

/-! ## Profile validation (`validateTrocarPerfilResult`) -/

/-- What one iteration of the polling loop observes: the two `isVisible()` probes, `none`
when the probe rejects. -/
structure Poll where
  invalidMessageVisible : Option Bool
  modalVisible : Option Bool

/-- The clock and the page during the polling: `now 0` is the reading of `Date.now()` that
fixes the deadline, `now (k + 1)` the reading at the head of iteration `k`, and `poll k` what
iteration `k` observes. -/
structure PollEnv where
  now : Nat → Nat
  poll : Nat → Poll

/-- Message of the error thrown when the invalid-identifier message is visible. -/
def invalidMessage (cnpj : JSString) : JSString := lit "CPF/CNPJ invalido no modal para " ++ cnpj

/-- Message of the error thrown when the deadline passes. -/
def timeoutMessage (cnpj : JSString) (actionTimeoutMs : Nat) : JSString :=
  lit "Modal Trocar Perfil nao fechou para " ++ cnpj ++ lit " em " ++ decimal actionTimeoutMs ++
    lit "ms"

/-- The loop `while (Date.now() < deadline)` from iteration `k` on, with the number of
iterations bounded by `fuel` (`none` when the bound is reached). -/
def validateLoop (env : PollEnv) (cnpj : JSString) (actionTimeoutMs deadline : Nat) :
    Nat → Nat → Option (Except JSString Unit)
  | 0, _ => none
  | fuel + 1, k =>
    if env.now (k + 1) < deadline then
      if orCatch (env.poll k).invalidMessageVisible false then
        some (.error (invalidMessage cnpj))
      else
        let modalVisible := orCatch (env.poll k).modalVisible false
        if !modalVisible then some (.ok ())
        else validateLoop env cnpj actionTimeoutMs deadline fuel (k + 1)
    else some (.error (timeoutMessage cnpj actionTimeoutMs))

/-- `validateTrocarPerfilResult(page, cnpj)`. -/
def validateTrocarPerfilResult (env : PollEnv) (cnpj : JSString) (actionTimeoutMs fuel : Nat) :
    Option (Except JSString Unit) :=
  validateLoop env cnpj actionTimeoutMs (env.now 0 + actionTimeoutMs) fuel 0

/-- Iteration `k` neither throws nor returns: the invalid-identifier message is not visible
and the modal is still visible. -/
def Pending (env : PollEnv) (k : Nat) : Prop :=
  orCatch (env.poll k).invalidMessageVisible false = false ∧
    orCatch (env.poll k).modalVisible false = true

/-- A modal that never closes: the clock advances 4000 ms per iteration and every poll sees
the modal visible; the probe of the invalid-identifier message rejects. -/
def stuckModal : PollEnv :=
  { now := fun k => 4000 * k,
    poll := fun _ => { invalidMessageVisible := none, modalVisible := some true } }

/-! ## Opening the guide-emission page (`openEmissaoRapida`) -/

/-- The option `waitUntil` of `page.goto`. -/
inductive WaitUntil
  | domcontentloaded
  | networkidle
deriving DecidableEq, Repr

/-- The calls `openEmissaoRapida` makes on the page; `goto` is always to `emissaoUrl`. -/
inductive NavCall
  | waitForTimeout (ms : Nat)
  | goto (waitUntil : WaitUntil)
  | waitForURL
deriving DecidableEq, Repr

/-- Whether the `k`-th `page.goto(emissaoUrl)` of the call resolves, and whether the
`waitForURL` that follows it resolves (`k = 0, 1, 2`). -/
structure NavEnv where
  gotoResolves : Nat → Bool
  waitForURLResolves : Nat → Bool

/-- The pair `await page.goto(emissaoUrl, { waitUntil }); await page.waitForURL(...)` as the
`k`-th navigation: the calls issued and whether both resolve. -/
def navigate (env : NavEnv) (k : Nat) (waitUntil : WaitUntil) : List NavCall × Bool :=
  if env.gotoResolves k then ([.goto waitUntil, .waitForURL], env.waitForURLResolves k)
  else ([.goto waitUntil], false)

/-- The loop `for (attempt = 1; attempt <= 2; attempt += 1)` over the remaining values of
`attempt`: the calls issued and whether the function returned from inside the loop. -/
def emissaoLoop (env : NavEnv) : List Nat → List NavCall × Bool
  | [] => ([], false)
  | attempt :: rest =>
    let r := navigate env (attempt - 1) .domcontentloaded
    if r.2 then (r.1, true)
    else if attempt = 2 then (r.1, false)
    else
      let r2 := emissaoLoop env rest
      (r.1 ++ r2.1, r2.2)

/-- `openEmissaoRapida(page)`: the calls issued, and whether it resolves or throws. -/
def openEmissaoRapida (env : NavEnv) : List NavCall × Except JSString Unit :=
  let r := emissaoLoop env [1, 2]
  if r.2 then (.waitForTimeout 200 :: r.1, .ok ())
  else
    let f := navigate env 2 .networkidle
    (.waitForTimeout 200 :: (r.1 ++ f.1),
      if f.2 then .ok () else .error (lit "page.goto: Timeout exceeded"))

/-- A page on which no navigation to the guide-emission URL succeeds. -/
def unreachableEmissao : NavEnv :=
  { gotoResolves := fun _ => false, waitForURLResolves := fun _ => false }

/-- The `waitUntil` options of the `goto` calls of a trace, in order. -/
def gotoOptions (calls : List NavCall) : List WaitUntil :=
  calls.filterMap (fun c => match c with
    | .goto w => some w
    | _ => none)

/-! ## The batch driver (loop of `main`) -/

/-- The collaborators of the loop of `main`, item by item (`i` is the index of the work item,
`attempt` is 1 or 2): whether `processCompany` resolves or throws an error with the given
`message`, whether the reset `page.goto('.../portal/servicos')` after a failed attempt
resolves, whether `buildOutputDirs` resolves (with `analystDir`) and whether
`appendErrorLog` resolves. -/
structure BatchEnv where
  processCompany : Nat → Nat → Except JSString Unit
  gotoServicos : Nat → Nat → Except JSString Unit
  buildOutputDirs : Nat → Except JSString JSString
  appendErrorLog : Nat → Except JSString Unit

/-- A line of the error log (the timestamp left out). -/
structure LogLine where
  cnpj : JSString
  empresa : JSString
  analista : JSString
  competencia : JSString
  reason : JSString
deriving DecidableEq, Repr

/-- What the loop of `main` does, in order: the calls it issues, the increments of its two
counters, and the lines that `appendErrorLog` appends to a log file. -/
inductive BatchEvent
  | processCompany (i attempt : Nat)
  | gotoServicos (i attempt : Nat)
  | successCounted (i : Nat)
  | failCounted (i : Nat)
  | buildOutputDirs (i : Nat)
  | appendErrorLog (i : Nat)
  | lineAppended (i : Nat) (analystDir : JSString) (line : LogLine)
deriving DecidableEq, Repr

/-- The variables of `main` that the loop updates, and the events so far. -/
structure BatchState where
  successCount : Nat
  failCount : Nat
  trace : List BatchEvent
deriving DecidableEq, Repr

/-- The handler `.catch(() => {})`: a rejection is swallowed. -/
def swallow (r : Except JSString Unit) : Except JSString Unit :=
  match r with
  | .ok _ => .ok ()
  | .error _ => .ok ()

/-- The inner loop `for (attempt = 1; attempt <= 2; attempt += 1)` of `main` over the remaining
values of `attempt`; it gives `processed`, `lastError` (its message) and the state. -/
def attemptLoop (env : BatchEnv) (i : Nat) :
    List Nat → Option JSString → BatchState → Except JSString (Bool × Option JSString × BatchState)
  | [], lastError, st => .ok (false, lastError, st)
  | attempt :: rest, lastError, st =>
    let st1 := { st with trace := st.trace ++ [BatchEvent.processCompany i attempt] }
    match env.processCompany i attempt with
    | .ok _ =>
      .ok (true, lastError,
        { st1 with successCount := st1.successCount + 1,
                   trace := st1.trace ++ [BatchEvent.successCounted i] })
    | .error message =>
      let st2 := { st1 with trace := st1.trace ++ [BatchEvent.gotoServicos i attempt] }
      match swallow (env.gotoServicos i attempt) with
      | .error e => .error e
      | .ok _ => attemptLoop env i rest (some message) st2

/-- The expression `lastError?.message || 'Timeout/Falha em duas tentativas'`. -/
def failureReason (lastError : Option JSString) : JSString :=
  match lastError with
  | none => lit "Timeout/Falha em duas tentativas"
  | some message => if message = [] then lit "Timeout/Falha em duas tentativas" else message

/-- The block `if (!processed) { ... }`: the failure is counted, then `buildOutputDirs` and
`appendErrorLog` run inside `try { ... } catch (logError) { ... }`. -/
def recordFailure (env : BatchEnv) (competencia : JSString) (i : Nat) (company : Company)
    (lastError : Option JSString) (st : BatchState) : BatchState :=
  let st1 := { st with failCount := st.failCount + 1,
                       trace := st.trace ++ [BatchEvent.failCounted i, BatchEvent.buildOutputDirs i] }
  match env.buildOutputDirs i with
  | .error _ => st1
  | .ok analystDir =>
    let st2 := { st1 with trace := st1.trace ++ [BatchEvent.appendErrorLog i] }
    match env.appendErrorLog i with
    | .error _ => st2
    | .ok _ =>
      { st2 with trace := st2.trace ++
          [BatchEvent.lineAppended i analystDir
            { cnpj := company.cnpj, empresa := company.empresa, analista := company.analista,
              competencia := competencia, reason := failureReason lastError }] }

/-- The body of the loop over the companies, for the work item of index `i`. -/
def processItem (env : BatchEnv) (competencia : JSString) (i : Nat) (company : Company)
    (st : BatchState) : Except JSString BatchState :=
  match attemptLoop env i [1, 2] none st with
  | .error e => .error e
  | .ok (processed, lastError, st1) =>
    if processed then .ok st1
    else .ok (recordFailure env competencia i company lastError st1)

/-- The loop `for (let i = 0; i < companies.length; i += 1)` from index `i` on; an error is an
exception that leaves the loop (and aborts `main`). -/
def mainLoop (env : BatchEnv) (competencia : JSString) :
    List Company → Nat → BatchState → Except JSString BatchState
  | [], _, st => .ok st
  | company :: rest, i, st =>
    match processItem env competencia i company st with
    | .error e => .error e
    | .ok st1 => mainLoop env competencia rest (i + 1) st1

/-- The loop of `main` over the work list, from `successCount = 0` and `failCount = 0`. -/
def runBatch (env : BatchEnv) (competencia : JSString) (companies : List Company) :
    Except JSString BatchState :=
  mainLoop env competencia companies 0 { successCount := 0, failCount := 0, trace := [] }

/-- Number of times item `i` was counted as a success. -/
def successesOf (i : Nat) (trace : List BatchEvent) : Nat :=
  trace.count (.successCounted i)

/-- Number of times item `i` was counted as a failure. -/
def failuresOf (i : Nat) (trace : List BatchEvent) : Nat :=
  trace.count (.failCounted i)

/-- Number of error-log lines appended for item `i`. -/
def logLinesOf (i : Nat) (trace : List BatchEvent) : Nat :=
  (trace.filter (fun e => match e with
    | .lineAppended j _ _ => j == i
    | _ => false)).length

/-- The events of one work item, as the retry policy gives them from the outcomes of its
collaborators. -/
def itemEvents (env : BatchEnv) (competencia : JSString) (i : Nat) (company : Company) :
    List BatchEvent :=
  match env.processCompany i 1 with
  | .ok _ => [.processCompany i 1, .successCounted i]
  | .error _ =>
    match env.processCompany i 2 with
    | .ok _ => [.processCompany i 1, .gotoServicos i 1, .processCompany i 2, .successCounted i]
    | .error m2 =>
      [.processCompany i 1, .gotoServicos i 1, .processCompany i 2, .gotoServicos i 2,
        .failCounted i, .buildOutputDirs i] ++
      (match env.buildOutputDirs i with
        | .error _ => []
        | .ok analystDir =>
          .appendErrorLog i ::
          (match env.appendErrorLog i with
            | .error _ => []
            | .ok _ =>
              [.lineAppended i analystDir
                { cnpj := company.cnpj, empresa := company.empresa,
                  analista := company.analista, competencia := competencia,
                  reason := failureReason (some m2) }]))

/-- The events of the items of a work list, the first item having index `i`. -/
def batchEvents (env : BatchEnv) (competencia : JSString) : List Company → Nat → List BatchEvent
  | [], _ => []
  | company :: rest, i =>
    itemEvents env competencia i company ++ batchEvents env competencia rest (i + 1)

/-- The index of the work item an event belongs to. -/
def eventItem : BatchEvent → Nat
  | .processCompany i _ => i
  | .gotoServicos i _ => i
  | .successCounted i => i
  | .failCounted i => i
  | .buildOutputDirs i => i
  | .appendErrorLog i => i
  | .lineAppended i _ _ => i

/-- The events of work item `i` in a trace, in order. -/
def eventsOf (i : Nat) (trace : List BatchEvent) : List BatchEvent :=
  trace.filter (fun e => eventItem e == i)

/-- An increment of `successCount`. -/
def isSuccessCounted : BatchEvent → Bool
  | .successCounted _ => true
  | _ => false

/-- An increment of `failCount`. -/
def isFailCounted : BatchEvent → Bool
  | .failCounted _ => true
  | _ => false

/-- Whether one of the two attempts of item `i` resolves. -/
def itemSucceeds (env : BatchEnv) (i : Nat) : Bool :=
  (env.processCompany i 1).isOk || (env.processCompany i 2).isOk

/-- Collaborators that always fail: every attempt throws, and so do the reset navigation,
`buildOutputDirs` and `appendErrorLog`. -/
def failingEnv : BatchEnv :=
  { processCompany := fun _ _ => .error (lit "Timeout"),
    gotoServicos := fun _ _ => .error (lit "net::ERR"),
    buildOutputDirs := fun _ => .error (lit "EACCES"),
    appendErrorLog := fun _ => .error (lit "EACCES") }

/-- Collaborators with an error log that cannot be written: every attempt throws, the reset
navigation and `buildOutputDirs` resolve, `appendErrorLog` throws. -/
def unwritableLogEnv : BatchEnv :=
  { processCompany := fun _ _ => .error (lit "Timeout"),
    gotoServicos := fun _ _ => .ok (),
    buildOutputDirs := fun _ => .ok (lit "out/ana"),
    appendErrorLog := fun _ => .error (lit "ENOSPC") }

/-- A work item. -/
def acme : Company :=
  { cnpj := lit "12345678000190", analista := lit "Ana", empresa := lit "ACME" }

/-- The calls of the retry policy in a trace: the attempts and the reset navigations. -/
def retryCalls (trace : List BatchEvent) : List BatchEvent :=
  trace.filter (fun e => match e with
    | .processCompany _ _ => true
    | .gotoServicos _ _ => true
    | _ => false)

/-! ## Lemmas on the string operations -/

theorem replaceRunsAux_mem (p : Nat → Bool) :
    ∀ (s : JSString) (b : Bool) (c : Nat), c ∈ replaceRunsAux p b s →
      c = underscore ∨ (c ∈ s ∧ p c = false) := by
  intro s
  induction s with
  | nil => intro b c h; simp [replaceRunsAux] at h
  | cons a t ih =>
    intro b c h
    unfold replaceRunsAux at h
    by_cases hp : p a = true
    · rw [if_pos hp] at h
      cases b with
      | true =>
        simp only [if_true] at h
        rcases ih true c h with h1 | ⟨h1, h2⟩
        · exact Or.inl h1
        · exact Or.inr ⟨List.mem_cons_of_mem _ h1, h2⟩
      | false =>
        simp only [Bool.false_eq_true, if_false, List.mem_cons] at h
        rcases h with h | h
        · exact Or.inl h
        · rcases ih true c h with h1 | ⟨h1, h2⟩
          · exact Or.inl h1
          · exact Or.inr ⟨List.mem_cons_of_mem _ h1, h2⟩
    · rw [if_neg hp] at h
      simp only [List.mem_cons] at h
      rcases h with h | h
      · right
        subst h
        exact ⟨List.mem_cons_self _ _, by simpa using hp⟩
      · rcases ih false c h with h1 | ⟨h1, h2⟩
        · exact Or.inl h1
        · exact Or.inr ⟨List.mem_cons_of_mem _ h1, h2⟩

theorem replaceRunsAux_of_none (p : Nat → Bool) :
    ∀ (s : JSString) (b : Bool), (∀ c ∈ s, p c = false) → replaceRunsAux p b s = s := by
  intro s
  induction s with
  | nil => intro b _; simp [replaceRunsAux]
  | cons a t ih =>
    intro b h
    have ha : p a = false := h a (List.mem_cons_self _ _)
    unfold replaceRunsAux
    simp only [ha, Bool.false_eq_true, if_false]
    rw [ih false (fun c hc => h c (List.mem_cons_of_mem _ hc))]

theorem isUnderscore_iff (c : Nat) : isUnderscore c = true ↔ c = underscore := by
  simp [isUnderscore]

theorem replaceRunsAux_underscore_shape :
    ∀ (s : JSString) (b : Bool),
      NoDoubleUnderscore (replaceRunsAux isUnderscore b s) ∧
        (b = true → (replaceRunsAux isUnderscore b s).head? ≠ some underscore) := by
  intro s
  induction s with
  | nil => intro b; simp [replaceRunsAux, NoDoubleUnderscore]
  | cons a t ih =>
    intro b
    unfold replaceRunsAux
    by_cases hp : isUnderscore a = true
    · rw [if_pos hp]
      cases b with
      | true => simpa using ih true
      | false =>
        simp only [Bool.false_eq_true, if_false, false_implies, and_true]
        unfold NoDoubleUnderscore
        rw [List.chain'_cons']
        refine ⟨?_, (ih true).1⟩
        intro y hy hc
        exact (ih true).2 rfl (by rw [Option.mem_def] at hy; rw [hy, hc.2])
    · rw [if_neg hp]
      have ha : a ≠ underscore := fun h => hp ((isUnderscore_iff a).2 h)
      refine ⟨?_, ?_⟩
      · unfold NoDoubleUnderscore
        rw [List.chain'_cons']
        exact ⟨fun y _ hc => ha hc.1, (ih false).1⟩
      · intro _ h
        simp only [List.head?_cons, Option.some.injEq] at h
        exact ha h

theorem replaceRunsAux_underscore_fixed :
    ∀ (s : JSString) (b : Bool), NoDoubleUnderscore s →
      (b = true → s.head? ≠ some underscore) → replaceRunsAux isUnderscore b s = s := by
  intro s
  induction s with
  | nil => intro b _ _; simp [replaceRunsAux]
  | cons a t ih =>
    intro b hc hb
    unfold NoDoubleUnderscore at hc
    rw [List.chain'_cons'] at hc
    unfold replaceRunsAux
    by_cases hp : isUnderscore a = true
    · have ha : a = underscore := (isUnderscore_iff a).1 hp
      rw [if_pos hp]
      cases b with
      | true => exact absurd (by simp [ha]) (hb rfl)
      | false =>
        simp only [Bool.false_eq_true, if_false]
        rw [ih true hc.2 (fun _ h => hc.1 underscore (by rw [Option.mem_def]; exact h) ⟨ha, rfl⟩), ha]
    · rw [if_neg hp, ih false hc.2 (fun h => absurd h (by simp))]

theorem head_dropWhile_false (p : Nat → Bool) :
    ∀ (l : JSString) (c : Nat), (l.dropWhile p).head? = some c → p c = false := by
  intro l
  induction l with
  | nil => intro c h; simp at h
  | cons a t ih =>
    intro c h
    by_cases hp : p a = true
    · rw [List.dropWhile_cons_of_pos hp] at h
      exact ih c h
    · rw [List.dropWhile_cons_of_neg hp] at h
      simp only [List.head?_cons, Option.some.injEq] at h
      subst h
      simpa using hp

theorem prefix_head_eq (l₁ l₂ : JSString) (h : l₁ <+: l₂) (c : Nat)
    (hc : l₁.head? = some c) : l₂.head? = some c := by
  obtain ⟨t, rfl⟩ := h
  cases l₁ with
  | nil => simp at hc
  | cons a u => simpa using hc

theorem trimUnderscores_eq (s : JSString) :
    trimUnderscores s = (s.dropWhile isUnderscore).rdropWhile isUnderscore := rfl

theorem infix_of_trimUnderscores (s : JSString) : trimUnderscores s <:+: s := by
  rw [trimUnderscores_eq]
  exact (List.rdropWhile_prefix _ _).isInfix.trans (List.dropWhile_suffix _).isInfix

theorem trimUnderscores_head (s : JSString) : (trimUnderscores s).head? ≠ some underscore := by
  intro h
  rw [trimUnderscores_eq] at h
  have h2 := prefix_head_eq _ _ (List.rdropWhile_prefix isUnderscore _) _ h
  have h3 := head_dropWhile_false isUnderscore s _ h2
  simp [isUnderscore] at h3

theorem trimUnderscores_fixed (s : JSString) (hh : s.head? ≠ some underscore)
    (hl : s.getLast? ≠ some underscore) : trimUnderscores s = s := by
  rw [trimUnderscores_eq]
  have h1 : s.dropWhile isUnderscore = s := by
    cases s with
    | nil => rfl
    | cons a t =>
      have ha : ¬ isUnderscore a = true := by
        intro h
        exact hh (by simp [(isUnderscore_iff a).1 h])
      rw [List.dropWhile_cons_of_neg ha]
  rw [h1, List.rdropWhile_eq_self_iff]
  intro hne h
  apply hl
  rw [List.getLast?_eq_getLast _ hne, (isUnderscore_iff _).1 h]

/-- The intermediate string of `sanitizeFilePart` before `.slice(0, 140)`. -/
theorem sanitizeFilePart_unfold (value : JSString) :
    sanitizeFilePart value =
      (trimUnderscores (replaceRuns isUnderscore (replaceRuns isWhitespace
        ((if value = [] then lit "sem_nome" else value).map
          (fun c => if isIllegalChar c then underscore else c))))).take 140 := rfl

theorem infix_of_sanitizeFilePart (value : JSString) :
    sanitizeFilePart value <:+: replaceRuns isUnderscore (replaceRuns isWhitespace
        ((if value = [] then lit "sem_nome" else value).map
          (fun c => if isIllegalChar c then underscore else c))) := by
  rw [sanitizeFilePart_unfold]
  exact (List.take_prefix _ _).isInfix.trans (infix_of_trimUnderscores _)

theorem sanitizeFilePart_chars (value : JSString) (c : Nat) (hc : c ∈ sanitizeFilePart value) :
    isIllegalChar c = false ∧ isWhitespace c = false := by
  have h3 := (infix_of_sanitizeFilePart value).subset hc
  have hu : isIllegalChar underscore = false ∧ isWhitespace underscore = false := by decide
  rcases replaceRunsAux_mem _ _ _ _ h3 with h | ⟨h, _⟩
  · rw [h]; exact hu
  · rcases replaceRunsAux_mem _ _ _ _ h with h | ⟨h, hw⟩
    · rw [h]; exact hu
    · refine ⟨?_, hw⟩
      rw [List.mem_map] at h
      obtain ⟨a, _, rfl⟩ := h
      by_cases hi : isIllegalChar a = true
      · rw [if_pos hi]; exact hu.1
      · rw [if_neg hi]; simpa using hi

theorem sanitizeFilePart_noDouble (value : JSString) :
    NoDoubleUnderscore (sanitizeFilePart value) :=
  List.Chain'.infix (replaceRunsAux_underscore_shape _ false).1 (infix_of_sanitizeFilePart value)

theorem sanitizeFilePart_head (value : JSString) :
    (sanitizeFilePart value).head? ≠ some underscore := by
  intro h
  rw [sanitizeFilePart_unfold] at h
  exact trimUnderscores_head _ (prefix_head_eq _ _ (List.take_prefix _ _) _ h)

theorem sanitizeFilePart_length (value : JSString) : (sanitizeFilePart value).length ≤ 140 := by
  rw [sanitizeFilePart_unfold, List.length_take]
  exact Nat.min_le_left _ _

/-- A non-empty string of the output shape that does not end with an underscore is a fixed
point of `sanitizeFilePart`. -/
theorem sanitizeFilePart_fixed (r : JSString) (hne : r ≠ [])
    (hchars : ∀ c ∈ r, isIllegalChar c = false ∧ isWhitespace c = false)
    (hdouble : NoDoubleUnderscore r) (hhead : r.head? ≠ some underscore)
    (hlast : r.getLast? ≠ some underscore) (hlen : r.length ≤ 140) :
    sanitizeFilePart r = r := by
  rw [sanitizeFilePart_unfold, if_neg hne]
  have h1 : r.map (fun c => if isIllegalChar c then underscore else c) = r := by
    conv_rhs => rw [← List.map_id r]
    apply List.map_congr_left
    intro c hc
    simp [(hchars c hc).1]
  rw [h1]
  have h2 : replaceRuns isWhitespace r = r :=
    replaceRunsAux_of_none _ r false (fun c hc => (hchars c hc).2)
  rw [h2]
  have h3 : replaceRuns isUnderscore r = r :=
    replaceRunsAux_underscore_fixed r false hdouble (fun h => absurd h (by simp))
  rw [h3, trimUnderscores_fixed r hhead hlast]
  exact List.take_of_length_le hlen

/-! ## `sanitizeFilePart`: idempotence and output shape -/

/-- C3, counterexample: `sanitizeFilePart("_")` is the empty string, and sanitizing the empty
string gives the placeholder `sem_nome`, so the second application changes the result. -/
theorem sanitizeFilePart_not_idempotent :
    sanitizeFilePart (lit "_") = [] ∧
      sanitizeFilePart (sanitizeFilePart (lit "_")) = lit "sem_nome" ∧
      sanitizeFilePart (sanitizeFilePart (lit "_")) ≠ sanitizeFilePart (lit "_") := by
  decide

/-- C3, amended: for every string `s` whose sanitized form does not end with an underscore, a
second application of `sanitizeFilePart` returns the sanitized form unchanged when it is
non-empty, and the placeholder `sem_nome` when it is empty. -/
theorem sanitizeFilePart_twice (s : JSString)
    (hlast : (sanitizeFilePart s).getLast? ≠ some underscore) :
    sanitizeFilePart (sanitizeFilePart s) =
      if sanitizeFilePart s = [] then lit "sem_nome" else sanitizeFilePart s := by
  by_cases h : sanitizeFilePart s = []
  · rw [if_pos h, h]; rfl
  · rw [if_neg h]
    exact sanitizeFilePart_fixed _ h (sanitizeFilePart_chars s) (sanitizeFilePart_noDouble s)
      (sanitizeFilePart_head s) hlast (sanitizeFilePart_length s)

/-- C3, witness: `"a b"` sanitizes to `"a_b"`, which a second application leaves unchanged. -/
theorem sanitizeFilePart_twice_witness :
    (sanitizeFilePart (lit "a b")).getLast? ≠ some underscore ∧
      sanitizeFilePart (sanitizeFilePart (lit "a b")) = lit "a_b" :=
  ⟨by decide, (sanitizeFilePart_twice (lit "a b") (by decide)).trans (by decide)⟩

/-- C4, failing input: for 139 letters `a` followed by `" b"` the text before `.slice(0, 140)`
is 139 letters, an underscore and `b`; the slice cuts after the underscore, so the output has
140 code units and ends with an underscore. -/
theorem sanitizeFilePart_trailing_underscore :
    sanitizeFilePart (List.replicate 139 97 ++ lit " b") = List.replicate 139 97 ++ [underscore] ∧
      (sanitizeFilePart (List.replicate 139 97 ++ lit " b")).getLast? = some underscore := by
  decide

/-! ## The row filter and the deduplication of `readCnpjDataFromExcel` -/

theorem filter_dropWhile_disjoint (p q : Nat → Bool) (h : ∀ c, q c = true → p c = false) :
    ∀ l : JSString, (l.dropWhile q).filter p = l.filter p := by
  intro l
  induction l with
  | nil => rfl
  | cons a t ih =>
    by_cases hq : q a = true
    · rw [List.dropWhile_cons_of_pos hq, ih, List.filter_cons_of_neg (by simp [h a hq])]
    · rw [List.dropWhile_cons_of_neg hq]

theorem whitespace_not_digit (c : Nat) (h : isWhitespace c = true) : isDigit c = false := by
  unfold isDigit
  unfold isWhitespace at h
  simp only [Bool.or_eq_true, Bool.and_eq_true, beq_iff_eq, decide_eq_true_eq] at h
  rw [Bool.and_eq_false_iff, decide_eq_false_iff_not, decide_eq_false_iff_not]
  omega

theorem onlyDigits_trim (x : JSString) : onlyDigits (trim x) = onlyDigits x := by
  unfold onlyDigits trim
  rw [List.filter_reverse, filter_dropWhile_disjoint _ _ whitespace_not_digit, List.filter_reverse,
    List.reverse_reverse, filter_dropWhile_disjoint _ _ whitespace_not_digit]

/-- C6: a row passes the filtering stage of the row loop (none of its three `continue`
statements skips it, so it reaches the deduplication check) if and only if its type-of-payroll
cell, after `normalizeText`, contains `com funcion`, and its tax-id cell, after `onlyDigits`,
has exactly 14 code units, and the normalized text of its (trimmed) tax-id cell does not
contain `procv`. -/
theorem rowCandidate_isSome_iff (js : JSBuiltins) (row : Row) :
    (rowCandidate js row).isSome = true ↔
      includes (normalizeText js (stringOr row.tipoFolha [])) (lit "com funcion") = true ∧
        (onlyDigits (stringOr row.cnpj [])).length = 14 ∧
        includes (normalizeText js (trim (stringOr row.cnpj []))) (lit "procv") = false := by
  unfold rowCandidate
  simp only [onlyDigits_trim]
  by_cases h1 : includes (normalizeText js (stringOr row.tipoFolha [])) (lit "com funcion") = true
  · by_cases h2 : includes (normalizeText js (trim (stringOr row.cnpj []))) (lit "procv") = true
    · simp [h1, h2]
    · by_cases h3 : (onlyDigits (stringOr row.cnpj [])).length = 14
      · have h4 : trim (stringOr row.cnpj []) ≠ [] := by
          intro h
          have h5 := onlyDigits_trim (stringOr row.cnpj [])
          rw [h] at h5
          rw [← h5] at h3
          simp [onlyDigits] at h3
        simp [h1, h2, h3, h4]
      · simp [h1, h2, h3]
  · simp [h1]

theorem rowCandidate_cnpj (js : JSBuiltins) (row : Row) (c : Company)
    (h : rowCandidate js row = some c) :
    c.cnpj.length = 14 ∧ ∀ x ∈ c.cnpj, isDigit x = true := by
  unfold rowCandidate at h
  simp only at h
  split at h
  · exact absurd h (by simp)
  · split at h
    · exact absurd h (by simp)
    · split at h
      · exact absurd h (by simp)
      · rename_i hlen
        simp only [Option.some.injEq] at h
        subst h
        refine ⟨by simpa using hlen, ?_⟩
        intro x hx
        simp only [onlyDigits, List.mem_filter] at hx
        exact hx.2

theorem dedupeKey_eq_iff (c d : Company) (h : c.cnpj.length = d.cnpj.length) :
    dedupeKey c = dedupeKey d ↔ SamePair c d := by
  unfold dedupeKey SamePair
  constructor
  · intro hk
    rw [List.append_assoc, List.append_assoc] at hk
    obtain ⟨h1, h2⟩ := List.append_inj hk h
    exact ⟨h1, List.append_cancel_left h2⟩
  · rintro ⟨h1, h2⟩
    rw [h1, h2]

theorem readRow_foldl (js : JSBuiltins) :
    ∀ (rows : List Row) (st : ReadState) (earlier : List Company),
      (∀ c ∈ earlier, c.cnpj.length = 14) →
      (∀ k, k ∈ st.seen ↔ ∃ d ∈ earlier, dedupeKey d = k) →
      (rows.foldl (readRow js) st).data =
        st.data ++ keepFirstAux earlier (rows.filterMap (rowCandidate js)) := by
  intro rows
  induction rows with
  | nil => intro st earlier _ _; simp [keepFirstAux]
  | cons row rs ih =>
    intro st earlier hlen hseen
    rw [List.foldl_cons]
    cases hc : rowCandidate js row with
    | none =>
      rw [List.filterMap_cons_none hc]
      have : readRow js st row = st := by unfold readRow; rw [hc]
      rw [this]
      exact ih st earlier hlen hseen
    | some c =>
      rw [List.filterMap_cons_some hc]
      have hc14 := (rowCandidate_cnpj js row c hc).1
      have hlen2 : ∀ d ∈ earlier ++ [c], d.cnpj.length = 14 := by
        intro d hd
        rcases List.mem_append.1 hd with hd | hd
        · exact hlen d hd
        · rw [List.mem_singleton.1 hd]; exact hc14
      have hkey : dedupeKey c ∈ st.seen ↔ ∃ d ∈ earlier, SamePair d c := by
        rw [hseen]
        constructor
        · rintro ⟨d, hd, hk⟩
          exact ⟨d, hd, (dedupeKey_eq_iff d c (by rw [hlen d hd, hc14])).1 hk⟩
        · rintro ⟨d, hd, hk⟩
          exact ⟨d, hd, (dedupeKey_eq_iff d c (by rw [hlen d hd, hc14])).2 hk⟩
      by_cases hin : dedupeKey c ∈ st.seen
      · have hst : readRow js st row = st := by unfold readRow; rw [hc]; simp [hin]
        rw [hst]
        have hex : ∃ d ∈ earlier, SamePair d c := hkey.1 hin
        have hk : keepFirstAux earlier (c :: rs.filterMap (rowCandidate js)) =
            keepFirstAux (earlier ++ [c]) (rs.filterMap (rowCandidate js)) := by
          rw [keepFirstAux, if_pos hex]
        rw [hk]
        apply ih st (earlier ++ [c]) hlen2
        intro k
        rw [hseen]
        constructor
        · rintro ⟨d, hd, hk⟩
          exact ⟨d, List.mem_append_left _ hd, hk⟩
        · rintro ⟨d, hd, hk⟩
          rcases List.mem_append.1 hd with hd | hd
          · exact ⟨d, hd, hk⟩
          · rw [List.mem_singleton.1 hd] at hk
            rw [← hk]
            exact (hseen _).1 hin
      · have hst : readRow js st row =
            { data := st.data ++ [c], seen := st.seen ++ [dedupeKey c] } := by
          unfold readRow; rw [hc]; simp [hin]
        rw [hst]
        have hex : ¬ ∃ d ∈ earlier, SamePair d c := fun h => hin (hkey.2 h)
        have hk : keepFirstAux earlier (c :: rs.filterMap (rowCandidate js)) =
            c :: keepFirstAux (earlier ++ [c]) (rs.filterMap (rowCandidate js)) := by
          rw [keepFirstAux, if_neg hex]
        rw [hk, ih _ (earlier ++ [c]) hlen2]
        · simp
        · intro k
          simp only [List.mem_append, List.mem_singleton]
          rw [hseen]
          constructor
          · rintro (⟨d, hd, hk⟩ | hk)
            · exact ⟨d, Or.inl hd, hk⟩
            · exact ⟨c, Or.inr rfl, hk.symm⟩
          · rintro ⟨d, hd | hd, hk⟩
            · exact Or.inl ⟨d, hd, hk⟩
            · right; rw [← hk, hd]

theorem keepFirstAux_mem (earlier : List Company) (cs : List Company) :
    ∀ e ∈ keepFirstAux earlier cs, e ∈ cs ∧ ¬ ∃ d ∈ earlier, SamePair d e := by
  induction cs generalizing earlier with
  | nil => intro e he; simp [keepFirstAux] at he
  | cons c cs ih =>
    intro e he
    rw [keepFirstAux] at he
    have hrest : e ∈ keepFirstAux (earlier ++ [c]) cs →
        e ∈ c :: cs ∧ ¬ ∃ d ∈ earlier, SamePair d e := by
      intro h
      obtain ⟨h1, h2⟩ := ih (earlier ++ [c]) e h
      exact ⟨List.mem_cons_of_mem _ h1,
        fun ⟨d, hd, hs⟩ => h2 ⟨d, List.mem_append_left _ hd, hs⟩⟩
    by_cases hex : ∃ d ∈ earlier, SamePair d c
    · rw [if_pos hex] at he
      exact hrest he
    · rw [if_neg hex] at he
      rcases List.mem_cons.1 he with he | he
      · rw [he]; exact ⟨List.mem_cons_self _ _, hex⟩
      · exact hrest he

theorem keepFirstAux_sublist (earlier : List Company) (cs : List Company) :
    List.Sublist (keepFirstAux earlier cs) cs := by
  induction cs generalizing earlier with
  | nil => simp [keepFirstAux]
  | cons c cs ih =>
    rw [keepFirstAux]
    split
    · exact (ih _).cons _
    · exact (ih _).cons₂ _

theorem keepFirstAux_pairwise (earlier : List Company) (cs : List Company) :
    List.Pairwise (fun c d => ¬ SamePair c d) (keepFirstAux earlier cs) := by
  induction cs generalizing earlier with
  | nil => simp [keepFirstAux]
  | cons c cs ih =>
    rw [keepFirstAux]
    split
    · exact ih _
    · rw [List.pairwise_cons]
      refine ⟨?_, ih _⟩
      intro e he hs
      exact (keepFirstAux_mem _ _ e he).2 ⟨c, by simp, hs⟩

theorem keepFirstAux_covers (earlier : List Company) (cs : List Company) :
    ∀ c ∈ cs, (∃ d ∈ earlier, SamePair d c) ∨ (∃ e ∈ keepFirstAux earlier cs, SamePair e c) := by
  induction cs generalizing earlier with
  | nil => intro c hc; simp at hc
  | cons x xs ih =>
    intro c hc
    rw [keepFirstAux]
    by_cases hex : ∃ d ∈ earlier, SamePair d x
    · rw [if_pos hex]
      rcases List.mem_cons.1 hc with hc | hc
      · rw [hc]; exact Or.inl hex
      · rcases ih (earlier ++ [x]) c hc with ⟨d, hd, hs⟩ | h
        · rcases List.mem_append.1 hd with hd | hd
          · exact Or.inl ⟨d, hd, hs⟩
          · rw [List.mem_singleton.1 hd] at hs
            obtain ⟨d2, hd2, hs2⟩ := hex
            exact Or.inl ⟨d2, hd2, ⟨hs2.1.trans hs.1, hs2.2.trans hs.2⟩⟩
        · exact Or.inr h
    · rw [if_neg hex]
      rcases List.mem_cons.1 hc with hc | hc
      · rw [hc]; exact Or.inr ⟨x, List.mem_cons_self _ _, ⟨rfl, rfl⟩⟩
      · rcases ih (earlier ++ [x]) c hc with ⟨d, hd, hs⟩ | ⟨e, he, hs⟩
        · rcases List.mem_append.1 hd with hd | hd
          · exact Or.inl ⟨d, hd, hs⟩
          · rw [List.mem_singleton.1 hd] at hs
            exact Or.inr ⟨x, List.mem_cons_self _ _, hs⟩
        · exact Or.inr ⟨e, List.mem_cons_of_mem _ he, hs⟩

theorem readCnpjData_ok (js : JSBuiltins) (sheetName : JSString) (rows : List Row)
    (data : List Company) (h : readCnpjData js sheetName rows = .ok data) :
    data = collectRows js rows ∧ data ≠ [] := by
  unfold readCnpjData at h
  split at h
  · exact absurd h (by simp)
  · simp only at h
    split at h
    · exact absurd h (by simp)
    · rename_i hne
      simp only [Except.ok.injEq] at h
      subst h
      exact ⟨rfl, fun h0 => hne (by rw [h0]; rfl)⟩

/-- C7: for every list of rows, the work list built by the row loop is the list of
filter-passing rows' entries, in row order, in which an entry is kept exactly when no earlier
filter-passing row has the same `(cnpj, analista)`; it is a sub-sequence of those entries, no
two of its entries have the same `(cnpj, analista)`, every `(cnpj, analista)` of a
filter-passing row is represented in it (so one `cnpj` appears once per distinct `analista`),
and every entry has a `cnpj` of exactly 14 digit characters. -/
theorem collectRows_keepFirst (js : JSBuiltins) (rows : List Row) :
    collectRows js rows = keepFirst (rows.filterMap (rowCandidate js)) ∧
      List.Sublist (collectRows js rows) (rows.filterMap (rowCandidate js)) ∧
      List.Pairwise (fun c d => ¬ (c.cnpj = d.cnpj ∧ c.analista = d.analista))
        (collectRows js rows) ∧
      (∀ c ∈ rows.filterMap (rowCandidate js),
        ∃ e ∈ collectRows js rows, e.cnpj = c.cnpj ∧ e.analista = c.analista) ∧
      (∀ e ∈ collectRows js rows, e.cnpj.length = 14 ∧ ∀ x ∈ e.cnpj, isDigit x = true) := by
  have heq : collectRows js rows = keepFirst (rows.filterMap (rowCandidate js)) := by
    unfold collectRows keepFirst
    rw [readRow_foldl js rows _ [] (by simp) (by simp)]
    simp
  rw [heq]
  refine ⟨rfl, keepFirstAux_sublist _ _, keepFirstAux_pairwise _ _, ?_, ?_⟩
  · intro c hc
    rcases keepFirstAux_covers [] _ c hc with ⟨d, hd, _⟩ | h
    · simp at hd
    · exact h
  · intro e he
    have hmem := (keepFirstAux_mem [] _ e he).1
    obtain ⟨row, _, hrow⟩ := List.mem_filterMap.1 hmem
    exact rowCandidate_cnpj js row e hrow

/-! ## `makeUniquePath` -/

theorem decimal_injective : Function.Injective decimal := by
  intro n m h
  unfold decimal at h
  have key : ∀ k : Nat, k ≠ 0 → (Nat.digits 10 k).reverse.map (fun d => d + 48) ≠ [48] := by
    intro k hk hd
    have h1 : (Nat.digits 10 k).reverse = [0] := by
      have : ([0] : List Nat).map (fun d => d + 48) = [48] := rfl
      rw [← this] at hd
      exact List.map_injective_iff.2 (fun a b hab => Nat.add_right_cancel hab) hd
    have h2 : Nat.digits 10 k = [0] := by
      have := congrArg List.reverse h1
      simpa using this
    have h3 := Nat.ofDigits_digits 10 k
    rw [h2] at h3
    exact hk (by simpa using h3.symm)
  by_cases hn : n = 0
  · by_cases hm : m = 0
    · rw [hn, hm]
    · rw [if_pos hn, if_neg hm] at h
      exact absurd h.symm (key m hm)
  · by_cases hm : m = 0
    · rw [if_neg hn, if_pos hm] at h
      exact absurd h (key n hn)
    · rw [if_neg hn, if_neg hm] at h
      have h1 := List.map_injective_iff.2 (fun a b hab => Nat.add_right_cancel hab) h
      exact Nat.digits.injective 10 (List.reverse_injective h1)

theorem decimal_ne_nil (n : Nat) : decimal n ≠ [] := by
  intro h
  have h0 : decimal 0 = [48] := rfl
  by_cases hn : n = 0
  · rw [hn, h0] at h; exact absurd h (by simp)
  · unfold decimal at h
    rw [if_neg hn] at h
    simp only [List.map_eq_nil_iff, List.reverse_eq_nil_iff] at h
    exact hn (Nat.digits_eq_nil_iff_eq_zero.1 h)

theorem candidateName_injective (P : PathModule) (filePath : JSString) (k m : Nat)
    (h : candidateName P filePath k = candidateName P filePath m) : k = m := by
  have hlen := congrArg List.length h
  have hpos : ∀ j, 0 < (decimal j).length := fun j => List.length_pos.2 (decimal_ne_nil j)
  unfold candidateName at h hlen
  by_cases hk : k = 0
  · by_cases hm : m = 0
    · rw [hk, hm]
    · rw [if_pos hk, if_neg hm] at hlen
      simp only [List.length_append, List.length_singleton] at hlen
      have := hpos m
      omega
  · by_cases hm : m = 0
    · rw [if_neg hk, if_pos hm] at hlen
      simp only [List.length_append, List.length_singleton] at hlen
      have := hpos k
      omega
    · rw [if_neg hk, if_neg hm] at h
      rw [List.append_assoc, List.append_assoc, List.append_assoc, List.append_assoc] at h
      have h2 := List.append_cancel_left (List.append_cancel_left h)
      exact decimal_injective (List.append_cancel_right h2)

theorem candidatePath_succ (P : PathModule) (filePath : JSString) (k : Nat) :
    candidatePath P filePath (k + 1) =
      P.join (P.dirname filePath) (candidateName P filePath (k + 1)) := by
  unfold candidatePath candidateName
  rw [if_neg (Nat.succ_ne_zero k), if_neg (Nat.succ_ne_zero k)]

theorem candidatePath_succ_injective (P : PathModule) (filePath : JSString)
    (hjoin : ∀ k m, P.join (P.dirname filePath) (candidateName P filePath k) =
      P.join (P.dirname filePath) (candidateName P filePath m) →
      candidateName P filePath k = candidateName P filePath m)
    (k m : Nat)
    (h : candidatePath P filePath (k + 1) = candidatePath P filePath (m + 1)) : k = m := by
  rw [candidatePath_succ, candidatePath_succ] at h
  have := candidateName_injective P filePath _ _ (hjoin _ _ h)
  omega

theorem candidatePath_injective (P : PathModule) (filePath : JSString)
    (hjoin : ∀ k m, P.join (P.dirname filePath) (candidateName P filePath k) =
      P.join (P.dirname filePath) (candidateName P filePath m) →
      candidateName P filePath k = candidateName P filePath m)
    (hp : filePath = P.join (P.dirname filePath) (candidateName P filePath 0))
    (k m : Nat) (h : candidatePath P filePath k = candidatePath P filePath m) : k = m := by
  have hall : ∀ j, candidatePath P filePath j =
      P.join (P.dirname filePath) (candidateName P filePath j) := by
    intro j
    cases j with
    | zero => exact hp
    | succ i => exact candidatePath_succ P filePath i
  rw [hall k, hall m] at h
  exact candidateName_injective P filePath k m (hjoin k m h)

theorem makeUniquePathLoop_first (P : PathModule) (fs : FileSystem) (filePath : JSString) :
    ∀ (d fuel a : Nat), candidatePath P filePath (a + d) ∉ fs →
      (∀ k, a ≤ k → k < a + d → candidatePath P filePath k ∈ fs) → d < fuel →
      makeUniquePathLoop P fs filePath fuel a (candidatePath P filePath a) =
        some (candidatePath P filePath (a + d)) := by
  intro d
  induction d with
  | zero =>
    intro fuel a hfree _ hfuel
    obtain ⟨f, rfl⟩ : ∃ f, fuel = f + 1 := ⟨fuel - 1, by omega⟩
    rw [Nat.add_zero] at hfree
    rw [makeUniquePathLoop, if_neg hfree, Nat.add_zero]
  | succ d ih =>
    intro fuel a hfree hused hfuel
    obtain ⟨f, rfl⟩ : ∃ f, fuel = f + 1 := ⟨fuel - 1, by omega⟩
    have hin : candidatePath P filePath a ∈ fs := hused a (Nat.le_refl _) (by omega)
    rw [makeUniquePathLoop, if_pos hin]
    have hnext : P.join (P.dirname filePath)
        (P.basename filePath (P.extname filePath) ++ [underscore] ++ decimal (a + 1) ++
          P.extname filePath) = candidatePath P filePath (a + 1) := by
      unfold candidatePath
      rw [if_neg (Nat.succ_ne_zero a)]
    rw [hnext]
    have hidx : a + (d + 1) = a + 1 + d := by omega
    rw [hidx] at hfree ⊢
    exact ih f (a + 1) hfree (fun k h1 h2 => hused k (by omega) (by omega)) (by omega)

theorem exists_free_candidate (P : PathModule) (fs : FileSystem) (filePath : JSString)
    (hjoin : ∀ k m, P.join (P.dirname filePath) (candidateName P filePath k) =
      P.join (P.dirname filePath) (candidateName P filePath m) →
      candidateName P filePath k = candidateName P filePath m) :
    ∃ m, m ≤ fs.length + 1 ∧ candidatePath P filePath m ∉ fs := by
  by_contra hcon
  have hall : ∀ m, m ≤ fs.length + 1 → candidatePath P filePath m ∈ fs := by
    intro m hm
    by_contra hm2
    exact hcon ⟨m, hm, hm2⟩
  have hnodup : ((List.range (fs.length + 1)).map
      (fun k => candidatePath P filePath (k + 1))).Nodup :=
    List.Nodup.map (fun k m h => candidatePath_succ_injective P filePath hjoin k m h)
      (List.nodup_range _)
  have hsub : (List.range (fs.length + 1)).map (fun k => candidatePath P filePath (k + 1)) ⊆ fs := by
    intro q hq
    obtain ⟨k, hk, rfl⟩ := List.mem_map.1 hq
    exact hall (k + 1) (by have := List.mem_range.1 hk; omega)
  have hlen := (List.subperm_of_subset hnodup hsub).length_le
  simp at hlen

theorem makeUniquePath_returns (P : PathModule) (fs : FileSystem) (filePath : JSString)
    (hjoin : ∀ k m, P.join (P.dirname filePath) (candidateName P filePath k) =
      P.join (P.dirname filePath) (candidateName P filePath m) →
      candidateName P filePath k = candidateName P filePath m)
    (fuel : Nat) (hfuel : fs.length + 2 ≤ fuel) :
    ∃ r, makeUniquePath P fs filePath fuel = some r ∧ r ∉ fs := by
  classical
  have hex : ∃ m, candidatePath P filePath m ∉ fs := by
    obtain ⟨m, _, hm⟩ := exists_free_candidate P fs filePath hjoin
    exact ⟨m, hm⟩
  have hle : Nat.find hex ≤ fs.length + 1 := by
    obtain ⟨m, hm1, hm2⟩ := exists_free_candidate P fs filePath hjoin
    exact (Nat.find_min' hex hm2).trans hm1
  refine ⟨candidatePath P filePath (Nat.find hex), ?_, Nat.find_spec hex⟩
  have h := makeUniquePathLoop_first P fs filePath (Nat.find hex) fuel 0
    (by rw [Nat.zero_add]; exact Nat.find_spec hex)
    (fun k _ hk => by
      rw [Nat.zero_add] at hk
      exact not_not.1 (Nat.find_min hex hk))
    (by omega)
  rw [Nat.zero_add] at h
  exact h

theorem afterSaves_spec (P : PathModule) (filePath : JSString)
    (hjoin : ∀ k m, P.join (P.dirname filePath) (candidateName P filePath k) =
      P.join (P.dirname filePath) (candidateName P filePath m) →
      candidateName P filePath k = candidateName P filePath m)
    (hp : filePath = P.join (P.dirname filePath) (candidateName P filePath 0))
    (fs : FileSystem) (hfresh : ∀ k, candidatePath P filePath k ∉ fs) (fuel : Nat) :
    ∀ n, n ≤ fuel → ∃ fsn, afterSaves P filePath fuel n fs = some fsn ∧
      (∀ k, candidatePath P filePath k ∈ fsn ↔ k < n) ∧ (∀ q ∈ fs, q ∈ fsn) := by
  intro n
  induction n with
  | zero =>
    intro _
    exact ⟨fs, rfl, fun k => ⟨fun h => absurd h (hfresh k), fun h => absurd h (Nat.not_lt_zero _)⟩,
      fun q hq => hq⟩
  | succ n ih =>
    intro hn
    obtain ⟨fsn, h1, h2, h3⟩ := ih (by omega)
    have hcall : makeUniquePath P fsn filePath fuel = some (candidatePath P filePath n) := by
      have h := makeUniquePathLoop_first P fsn filePath n fuel 0
        (by rw [Nat.zero_add, h2]; exact Nat.lt_irrefl _)
        (fun k _ hk => by rw [Nat.zero_add] at hk; exact (h2 k).2 hk) (by omega)
      rw [Nat.zero_add] at h
      exact h
    refine ⟨candidatePath P filePath n :: fsn, ?_, ?_, fun q hq => List.mem_cons_of_mem _ (h3 q hq)⟩
    · rw [afterSaves, h1]
      simp only [hcall]
    · intro k
      rw [List.mem_cons, h2]
      constructor
      · rintro (h | h)
        · rw [candidatePath_injective P filePath hjoin hp k n h]; exact Nat.lt_succ_self _
        · omega
      · intro h
        by_cases hk : k = n
        · exact Or.inl (by rw [hk])
        · exact Or.inr (by omega)

theorem splitSlash_of_no_slash : ∀ n : JSString, 47 ∉ n → splitSlash n = [n] := by
  intro n
  induction n with
  | nil => intro _; rfl
  | cons c t ih =>
    intro h
    have hc : c ≠ 47 := fun hc => h (by rw [hc]; exact List.mem_cons_self _ _)
    have ht : 47 ∉ t := fun ht => h (List.mem_cons_of_mem _ ht)
    rw [splitSlash, if_neg hc, ih ht]

theorem splitSlash_cons_of_ne (c : Nat) (cs s : JSString) (ss : List JSString) (hc : c ≠ 47)
    (hs : splitSlash cs = s :: ss) : splitSlash (c :: cs) = (c :: s) :: ss := by
  rw [splitSlash, if_neg hc, hs]

theorem splitSlash_slash (cs : JSString) : splitSlash (47 :: cs) = [] :: splitSlash cs := by
  rw [splitSlash, if_pos rfl]

theorem posixJoin_out (t : JSString) (h : 47 ∉ t) :
    posixJoin (lit "out") (97 :: t) = lit "out/" ++ 97 :: t := by
  have hout : lit "out" = [111, 117, 116] := by decide
  have hout2 : lit "out/" = [111, 117, 116, 47] := by decide
  have hn : (47 : Nat) ∉ 97 :: t := by
    intro hm
    rcases List.mem_cons.1 hm with hm | hm
    · exact absurd hm (by decide)
    · exact h hm
  have hsplit : splitSlash (111 :: 117 :: 116 :: 47 :: 97 :: t) =
      [[111, 117, 116], 97 :: t] := by
    have h0 := splitSlash_of_no_slash _ hn
    have h1 : splitSlash (47 :: 97 :: t) = [[], 97 :: t] := by rw [splitSlash_slash, h0]
    have h2 := splitSlash_cons_of_ne 116 _ _ _ (by decide) h1
    have h3 := splitSlash_cons_of_ne 117 _ _ _ (by decide) h2
    exact splitSlash_cons_of_ne 111 _ _ _ (by decide) h3
  have hlast : (111 :: 117 :: 116 :: 47 :: 97 :: t).getLast? ≠ some 47 := by
    intro hl
    have h1 : (111 :: 117 :: 116 :: 47 :: 97 :: t).getLast? = (97 :: t).getLast? := by
      simp [List.getLast?_cons_cons]
    rw [h1] at hl
    exact hn (List.mem_of_getLast?_eq_some hl)
  have hseg : normalizeSegments true [[111, 117, 116], 97 :: t] [] =
      [[111, 117, 116], 97 :: t] := by
    simp [normalizeSegments]
  rw [hout, hout2]
  unfold posixJoin
  rw [if_neg (by simp), if_neg (by simp)]
  unfold posixNormalize
  simp only [List.cons_append, List.nil_append, List.head?_cons]
  rw [if_neg (by simp), hsplit]
  simp only [hlast]
  simp [hseg, List.intercalate]

theorem decimal_no_slash (k : Nat) : 47 ∉ decimal k := by
  intro h
  unfold decimal at h
  by_cases hk : k = 0
  · rw [if_pos hk] at h
    simp at h
  · rw [if_neg hk] at h
    simp only [List.mem_map] at h
    obtain ⟨d, _, hd⟩ := h
    omega

theorem candidateName_acme (k : Nat) :
    ∃ t, 47 ∉ t ∧ candidateName posixPath (lit "out/acme.pdf") k = 97 :: t := by
  have hext : posixPath.extname (lit "out/acme.pdf") = [46, 112, 100, 102] := by decide
  have hbase : posixPath.basename (lit "out/acme.pdf") [46, 112, 100, 102] =
      [97, 99, 109, 101] := by decide
  unfold candidateName
  rw [hext, hbase]
  by_cases hk : k = 0
  · rw [if_pos hk]
    exact ⟨[99, 109, 101, 46, 112, 100, 102], by decide, rfl⟩
  · rw [if_neg hk]
    refine ⟨[99, 109, 101, underscore] ++ decimal k ++ [46, 112, 100, 102], ?_, by simp⟩
    intro h
    rcases List.mem_append.1 h with h | h
    · rcases List.mem_append.1 h with h | h
      · exact absurd h (by decide)
      · exact decimal_no_slash k h
    · exact absurd h (by decide)

/-- C5: over a file system state `fs` (a finite set of existing paths), for a path
`filePath = join(dir, base + ext)` and path functions whose `join(dir, _)` sends different
candidate file names (`base + ext`, `base_1 ext`, `base_2 ext`, ...) to different paths,
`makeUniquePath(filePath)` terminates (any iteration bound above the size of `fs` plus `n + 1` is
enough) and returns a path that does not exist in `fs`; and when no candidate exists at first
and `n` earlier calls with the same path each created their result, the next call returns the
`n`-th candidate, `filePath` itself for `n = 0` and `join(dir, base_n ext)` for `n ≥ 1`, which
does not exist yet, while the results of the earlier calls all still exist. -/
theorem makeUniquePath_spec (P : PathModule) (filePath : JSString)
    (hjoin : ∀ k m, P.join (P.dirname filePath) (candidateName P filePath k) =
      P.join (P.dirname filePath) (candidateName P filePath m) →
      candidateName P filePath k = candidateName P filePath m)
    (hp : filePath = P.join (P.dirname filePath)
      (P.basename filePath (P.extname filePath) ++ P.extname filePath))
    (fs : FileSystem) (n fuel : Nat) (hfuel : fs.length + n + 2 ≤ fuel) :
    (∃ r, makeUniquePath P fs filePath fuel = some r ∧ r ∉ fs) ∧
      ((∀ k, candidatePath P filePath k ∉ fs) →
        ∃ fsn, afterSaves P filePath fuel n fs = some fsn ∧
          (∀ k, k < n → candidatePath P filePath k ∈ fsn) ∧
          makeUniquePath P fsn filePath fuel =
            some (if n = 0 then filePath
              else P.join (P.dirname filePath)
                (P.basename filePath (P.extname filePath) ++ [underscore] ++ decimal n ++
                  P.extname filePath)) ∧
          candidatePath P filePath n ∉ fsn) := by
  refine ⟨makeUniquePath_returns P fs filePath hjoin fuel (by omega), ?_⟩
  intro hfresh
  obtain ⟨fsn, h1, h2, _⟩ := afterSaves_spec P filePath hjoin hp fs hfresh fuel n (by omega)
  refine ⟨fsn, h1, fun k hk => (h2 k).2 hk, ?_, fun h => Nat.lt_irrefl n ((h2 n).1 h)⟩
  have h := makeUniquePathLoop_first P fsn filePath n fuel 0
    (by rw [Nat.zero_add, h2]; exact Nat.lt_irrefl _)
    (fun k _ hk => by rw [Nat.zero_add] at hk; exact (h2 k).2 hk) (by omega)
  rw [Nat.zero_add] at h
  exact h

/-- C5, witness: with the path functions of `path.posix`, the path `out/acme.pdf`, an empty
directory and one earlier call, the bound 3 is enough; the first call returned
`out/acme.pdf`, which still exists, and the second call returns
`join('out', 'acme_1.pdf')`. -/
theorem makeUniquePath_spec_witness :
    (∃ r, makeUniquePath posixPath [] (lit "out/acme.pdf") 3 = some r ∧ r ∉ []) ∧
      ∃ fsn, afterSaves posixPath (lit "out/acme.pdf") 3 1 [] = some fsn ∧
        (∀ k, k < 1 → candidatePath posixPath (lit "out/acme.pdf") k ∈ fsn) ∧
        makeUniquePath posixPath fsn (lit "out/acme.pdf") 3 =
          some (posixJoin (lit "out") (lit "acme" ++ [underscore] ++ decimal 1 ++ lit ".pdf")) ∧
        candidatePath posixPath (lit "out/acme.pdf") 1 ∉ fsn :=
  have hdir : posixPath.dirname (lit "out/acme.pdf") = lit "out" := by decide
  have h := makeUniquePath_spec posixPath (lit "out/acme.pdf")
    (fun k m hkm => by
      obtain ⟨t, ht, hk⟩ := candidateName_acme k
      obtain ⟨u, hu, hm⟩ := candidateName_acme m
      have hj : posixPath.join = posixJoin := rfl
      rw [hdir, hk, hm, hj, posixJoin_out t ht, posixJoin_out u hu] at hkm
      rw [hk, hm]
      exact List.append_cancel_left hkm)
    (by decide) [] 1 3 (by decide)
  ⟨h.1, h.2 (fun k hk => by simp at hk)⟩

/-! ## `uncheckRescisorio` -/

/-- C8, counterexample: when the checkbox is absent from the page, `waitFor` with
`state: 'attached'` rejects after the timeout and `uncheckRescisorio` throws. -/
theorem uncheckRescisorio_absent_throws :
    (uncheckRescisorio absentCheckbox).2.isOk = false ∧
      (uncheckRescisorio absentCheckbox).1 = [CheckboxCall.waitForAttached] := by
  decide

/-- C8, amended: `uncheckRescisorio` issues the uncheck action if and only if the checkbox is
attached to the page, visible, enabled and checked (a probe that rejects counts as hidden,
disabled, unchecked), and it completes without throwing if and only if the checkbox is attached
within the timeout and the uncheck action, when issued, succeeds; so an attached checkbox that
is hidden, disabled or already unchecked is a no-op, and an absent one makes the step throw. -/
theorem uncheckRescisorio_spec (page : CheckboxPage) :
    (CheckboxCall.uncheck ∈ (uncheckRescisorio page).1 ↔
        page.attached = true ∧ page.isVisible = some true ∧ page.isDisabled = some false ∧
          page.isChecked = some true) ∧
      ((uncheckRescisorio page).2.isOk = true ↔
        page.attached = true ∧
          (CheckboxCall.uncheck ∉ (uncheckRescisorio page).1 ∨ page.uncheckResolves = true)) := by
  rcases page with ⟨a, v, d, c, u⟩
  cases a <;> rcases v with _ | _ | _ <;> rcases d with _ | _ | _ <;> rcases c with _ | _ | _ <;>
    cases u <;> simp [uncheckRescisorio, orCatch, Except.isOk, Except.toBool]

/-! ## `openEmissaoRapida` -/

/-- C10, counterexample: when every navigation fails, three navigations to the guide-emission
URL are issued, and the second one uses `domcontentloaded`, not `networkidle`. -/
theorem openEmissaoRapida_three_navigations :
    gotoOptions (openEmissaoRapida unreachableEmissao).1 =
      [WaitUntil.domcontentloaded, WaitUntil.domcontentloaded, WaitUntil.networkidle] ∧
    ¬ (gotoOptions (openEmissaoRapida unreachableEmissao).1).length ≤ 2 := by
  decide

/-- C10, amended: `openEmissaoRapida` navigates to the guide-emission URL and waits for the
URL to match; when that fails it repeats the same navigation once with `domcontentloaded`, and
when that fails too it navigates a third time with `networkidle`.  So at most three
navigations are issued per call, the first two with `domcontentloaded` and the third with
`networkidle`, none after the first that succeeds, and the call fails exactly when all three
fail. -/
theorem openEmissaoRapida_spec (env : NavEnv) :
    gotoOptions (openEmissaoRapida env).1 =
        (if env.gotoResolves 0 && env.waitForURLResolves 0 then [WaitUntil.domcontentloaded]
          else if env.gotoResolves 1 && env.waitForURLResolves 1 then
            [WaitUntil.domcontentloaded, WaitUntil.domcontentloaded]
          else [WaitUntil.domcontentloaded, WaitUntil.domcontentloaded, WaitUntil.networkidle]) ∧
      (gotoOptions (openEmissaoRapida env).1).length ≤ 3 ∧
      ((openEmissaoRapida env).2.isOk = false ↔
        ∀ k, k < 3 → (env.gotoResolves k && env.waitForURLResolves k) = false) := by
  have hall : (∀ k, k < 3 → (env.gotoResolves k && env.waitForURLResolves k) = false) ↔
      (env.gotoResolves 0 && env.waitForURLResolves 0) = false ∧
      (env.gotoResolves 1 && env.waitForURLResolves 1) = false ∧
      (env.gotoResolves 2 && env.waitForURLResolves 2) = false := by
    constructor
    · intro h
      exact ⟨h 0 (by omega), h 1 (by omega), h 2 (by omega)⟩
    · rintro ⟨h0, h1, h2⟩ k hk
      obtain rfl | rfl | rfl : k = 0 ∨ k = 1 ∨ k = 2 := by omega
      · exact h0
      · exact h1
      · exact h2
  rw [hall]
  cases h0 : env.gotoResolves 0 <;> cases w0 : env.waitForURLResolves 0 <;>
    cases h1 : env.gotoResolves 1 <;> cases w1 : env.waitForURLResolves 1 <;>
    cases h2 : env.gotoResolves 2 <;> cases w2 : env.waitForURLResolves 2 <;>
    simp [openEmissaoRapida, emissaoLoop, navigate, gotoOptions, h0, w0, h1, w1, h2, w2,
      Except.isOk, Except.toBool]

/-! ## `validateTrocarPerfilResult` -/

theorem validateLoop_pending (env : PollEnv) (cnpj : JSString) (actionTimeoutMs deadline : Nat) :
    ∀ (d fuel k : Nat),
      (∀ j, k ≤ j → j < k + d → env.now (j + 1) < deadline ∧ Pending env j) →
      validateLoop env cnpj actionTimeoutMs deadline (fuel + d) k =
        validateLoop env cnpj actionTimeoutMs deadline fuel (k + d) := by
  intro d
  induction d with
  | zero => intro fuel k _; rfl
  | succ d ih =>
    intro fuel k h
    obtain ⟨hnow, hinv, hmodal⟩ := h k (Nat.le_refl _) (by omega)
    have hf : fuel + (d + 1) = (fuel + d) + 1 := by omega
    rw [hf, validateLoop, if_pos hnow, hinv]
    simp only [Bool.false_eq_true, if_false, hmodal, Bool.not_true]
    rw [ih fuel (k + 1) (fun j h1 h2 => h j (by omega) (by omega))]
    congr 1
    omega

/-- C9: let the clock be before the deadline `now + ACTION_TIMEOUT_MS` at the head of the
iterations `0 .. K-1` and at or past it at the head of iteration `K`.  Then
`validateTrocarPerfilResult` returns a result (any iteration bound above `K` is enough): it
throws the invalid-identifier error at the first poll before the deadline where the invalid
message is visible, it returns normally at the first such poll where neither the invalid
message nor the modal is visible, and it throws the timeout error when every poll before the
deadline sees the modal visible and no invalid message; both messages contain the cnpj.  A
probe that rejects counts as not visible. -/
theorem validateTrocarPerfilResult_spec (env : PollEnv) (cnpj : JSString)
    (actionTimeoutMs K fuel : Nat)
    (hbefore : ∀ k, k < K → env.now (k + 1) < env.now 0 + actionTimeoutMs)
    (hK : env.now 0 + actionTimeoutMs ≤ env.now (K + 1)) (hfuel : K < fuel) :
    (∀ k, k < K → (∀ j, j < k → Pending env j) →
        orCatch (env.poll k).invalidMessageVisible false = true →
        validateTrocarPerfilResult env cnpj actionTimeoutMs fuel =
          some (.error (invalidMessage cnpj))) ∧
      (∀ k, k < K → (∀ j, j < k → Pending env j) →
        orCatch (env.poll k).invalidMessageVisible false = false →
        orCatch (env.poll k).modalVisible false = false →
        validateTrocarPerfilResult env cnpj actionTimeoutMs fuel = some (.ok ())) ∧
      ((∀ j, j < K → Pending env j) →
        validateTrocarPerfilResult env cnpj actionTimeoutMs fuel =
          some (.error (timeoutMessage cnpj actionTimeoutMs))) ∧
      cnpj <:+: invalidMessage cnpj ∧ cnpj <:+: timeoutMessage cnpj actionTimeoutMs ∧
      orCatch none false = false := by
  have hskip : ∀ k, k ≤ K → (∀ j, j < k → Pending env j) →
      validateTrocarPerfilResult env cnpj actionTimeoutMs fuel =
        validateLoop env cnpj actionTimeoutMs (env.now 0 + actionTimeoutMs) (fuel - k - 1 + 1) k := by
    intro k hk hpend
    unfold validateTrocarPerfilResult
    have hf : fuel = (fuel - k - 1 + 1) + k := by omega
    conv_lhs => rw [hf]
    rw [validateLoop_pending env cnpj actionTimeoutMs _ k (fuel - k - 1 + 1) 0
      (fun j _ h2 => ⟨hbefore j (by omega), hpend j (by omega)⟩)]
    rw [Nat.zero_add]
  refine ⟨?_, ?_, ?_, ?_, ?_, rfl⟩
  · intro k hk hpend hinv
    rw [hskip k (Nat.le_of_lt hk) hpend, validateLoop, if_pos (hbefore k hk), hinv]
    simp
  · intro k hk hpend hinv hmodal
    rw [hskip k (Nat.le_of_lt hk) hpend, validateLoop, if_pos (hbefore k hk), hinv]
    simp [hmodal]
  · intro hpend
    rw [hskip K (Nat.le_refl _) hpend, validateLoop, if_neg (by omega)]
  · exact ⟨lit "CPF/CNPJ invalido no modal para ", [], by simp [invalidMessage]⟩
  · exact ⟨lit "Modal Trocar Perfil nao fechou para ",
      lit " em " ++ decimal actionTimeoutMs ++ lit "ms", by simp [timeoutMessage]⟩

/-- C9, witness: with a timeout of 10000 ms, a clock that advances 4000 ms per iteration and a
modal that stays visible, two polls are taken and the third reading of the clock is past the
deadline: the call throws the timeout error naming the cnpj. -/
theorem validateTrocarPerfilResult_spec_witness :
    validateTrocarPerfilResult stuckModal (lit "12345678000190") 10000 3 =
      some (.error (timeoutMessage (lit "12345678000190") 10000)) :=
  (validateTrocarPerfilResult_spec stuckModal (lit "12345678000190") 10000 2 3
    (fun k hk => by simp only [stuckModal]; omega) (by decide) (by decide)).2.2.1
    (fun _ _ => ⟨rfl, rfl⟩)

/-! ## The batch driver -/

theorem processItem_eq (env : BatchEnv) (competencia : JSString) (i : Nat) (company : Company)
    (st : BatchState) :
    processItem env competencia i company st =
      .ok { successCount := st.successCount +
              (itemEvents env competencia i company).countP isSuccessCounted,
            failCount := st.failCount +
              (itemEvents env competencia i company).countP isFailCounted,
            trace := st.trace ++ itemEvents env competencia i company } := by
  unfold processItem itemEvents
  simp only [attemptLoop]
  cases h1 : env.processCompany i 1 <;> cases h2 : env.processCompany i 2 <;>
    cases g1 : env.gotoServicos i 1 <;> cases g2 : env.gotoServicos i 2 <;>
    cases hd : env.buildOutputDirs i <;> cases ha : env.appendErrorLog i <;>
    simp [swallow, recordFailure, hd, ha, isSuccessCounted, isFailCounted, List.countP_cons]

theorem itemEvents_counted (env : BatchEnv) (competencia : JSString) (i : Nat)
    (company : Company) :
    (itemEvents env competencia i company).countP isSuccessCounted +
      (itemEvents env competencia i company).countP isFailCounted = 1 := by
  unfold itemEvents
  cases h1 : env.processCompany i 1 <;> cases h2 : env.processCompany i 2 <;>
    cases hd : env.buildOutputDirs i <;> cases ha : env.appendErrorLog i <;>
    simp [isSuccessCounted, isFailCounted, List.countP_cons]

theorem mainLoop_eq (env : BatchEnv) (competencia : JSString) :
    ∀ (companies : List Company) (i : Nat) (st : BatchState),
      ∃ st1, mainLoop env competencia companies i st = .ok st1 ∧
        st1.trace = st.trace ++ batchEvents env competencia companies i ∧
        st1.successCount = st.successCount +
          (batchEvents env competencia companies i).countP isSuccessCounted ∧
        st1.failCount = st.failCount +
          (batchEvents env competencia companies i).countP isFailCounted ∧
        st1.successCount + st1.failCount =
          st.successCount + st.failCount + companies.length := by
  intro companies
  induction companies with
  | nil => intro i st; exact ⟨st, rfl, by simp [batchEvents], by simp [batchEvents],
      by simp [batchEvents], by simp⟩
  | cons c cs ih =>
    intro i st
    rw [mainLoop, processItem_eq]
    obtain ⟨st1, h1, h2, h3, h4, h5⟩ := ih (i + 1)
      { successCount := st.successCount +
          (itemEvents env competencia i c).countP isSuccessCounted,
        failCount := st.failCount + (itemEvents env competencia i c).countP isFailCounted,
        trace := st.trace ++ itemEvents env competencia i c }
    dsimp only at h2 h3 h4 h5
    refine ⟨st1, h1, ?_, ?_, ?_, ?_⟩
    · rw [h2, batchEvents, List.append_assoc]
    · rw [h3, batchEvents, List.countP_append]; omega
    · rw [h4, batchEvents, List.countP_append]; omega
    · rw [h5]
      have := itemEvents_counted env competencia i c
      simp only [List.length_cons]
      omega

theorem eventItem_itemEvents (env : BatchEnv) (competencia : JSString) (i : Nat)
    (company : Company) : ∀ e ∈ itemEvents env competencia i company, eventItem e = i := by
  unfold itemEvents
  cases h1 : env.processCompany i 1 <;> cases h2 : env.processCompany i 2 <;>
    cases hd : env.buildOutputDirs i <;> cases ha : env.appendErrorLog i <;>
    simp [eventItem]

theorem eventsOf_itemEvents (env : BatchEnv) (competencia : JSString) (i j : Nat)
    (company : Company) :
    eventsOf i (itemEvents env competencia j company) =
      if j = i then itemEvents env competencia j company else [] := by
  unfold eventsOf
  by_cases h : j = i
  · rw [if_pos h, List.filter_eq_self]
    intro e he
    simp [eventItem_itemEvents env competencia j company e he, h]
  · rw [if_neg h, List.filter_eq_nil_iff]
    intro e he
    simp [eventItem_itemEvents env competencia j company e he, h]

theorem eventsOf_batchEvents_lt (env : BatchEnv) (competencia : JSString) :
    ∀ (companies : List Company) (i0 i : Nat), i < i0 →
      eventsOf i (batchEvents env competencia companies i0) = [] := by
  intro companies
  induction companies with
  | nil => intro i0 i _; rfl
  | cons c cs ih =>
    intro i0 i h
    have h1 : eventsOf i (itemEvents env competencia i0 c ++ batchEvents env competencia cs (i0 + 1))
        = eventsOf i (itemEvents env competencia i0 c) ++
          eventsOf i (batchEvents env competencia cs (i0 + 1)) := List.filter_append _ _
    rw [batchEvents, h1, eventsOf_itemEvents, if_neg (by omega), ih (i0 + 1) i (by omega)]
    rfl

theorem eventsOf_batchEvents (env : BatchEnv) (competencia : JSString) :
    ∀ (companies : List Company) (i0 i : Nat), i0 ≤ i → i < i0 + companies.length →
      ∃ c ∈ companies,
        eventsOf i (batchEvents env competencia companies i0) = itemEvents env competencia i c := by
  intro companies
  induction companies with
  | nil => intro i0 i h1 h2; simp at h2; omega
  | cons c cs ih =>
    intro i0 i h1 h2
    have happ : eventsOf i (itemEvents env competencia i0 c ++
        batchEvents env competencia cs (i0 + 1)) =
          eventsOf i (itemEvents env competencia i0 c) ++
          eventsOf i (batchEvents env competencia cs (i0 + 1)) := List.filter_append _ _
    rw [batchEvents, happ, eventsOf_itemEvents]
    by_cases h : i0 = i
    · rw [if_pos h, eventsOf_batchEvents_lt env competencia cs (i0 + 1) i (by omega),
        List.append_nil, h]
      exact ⟨c, List.mem_cons_self _ _, rfl⟩
    · rw [if_neg h, List.nil_append]
      simp only [List.length_cons] at h2
      obtain ⟨d, hd, heq⟩ := ih (i0 + 1) i (by omega) (by omega)
      exact ⟨d, List.mem_cons_of_mem _ hd, heq⟩

theorem successesOf_eventsOf (i : Nat) (trace : List BatchEvent) :
    successesOf i (eventsOf i trace) = successesOf i trace := by
  unfold successesOf eventsOf
  exact List.count_filter (by simp [eventItem])

theorem failuresOf_eventsOf (i : Nat) (trace : List BatchEvent) :
    failuresOf i (eventsOf i trace) = failuresOf i trace := by
  unfold failuresOf eventsOf
  exact List.count_filter (by simp [eventItem])

theorem logLinesOf_eventsOf (i : Nat) (trace : List BatchEvent) :
    logLinesOf i (eventsOf i trace) = logLinesOf i trace := by
  unfold logLinesOf eventsOf
  rw [List.filter_filter]
  congr 1
  apply List.filter_congr
  intro e _
  cases e <;> simp [eventItem]

theorem itemEvents_counts (env : BatchEnv) (competencia : JSString) (i : Nat)
    (company : Company) :
    successesOf i (itemEvents env competencia i company) = (if itemSucceeds env i then 1 else 0) ∧
      failuresOf i (itemEvents env competencia i company) =
        (if itemSucceeds env i then 0 else 1) ∧
      logLinesOf i (itemEvents env competencia i company) =
        (if !itemSucceeds env i && (env.buildOutputDirs i).isOk && (env.appendErrorLog i).isOk
          then 1 else 0) := by
  unfold itemEvents itemSucceeds successesOf failuresOf logLinesOf
  cases h1 : env.processCompany i 1 <;> cases h2 : env.processCompany i 2 <;>
    cases hd : env.buildOutputDirs i <;> cases ha : env.appendErrorLog i <;>
    simp [List.count_cons, Except.isOk, Except.toBool]

theorem itemEvents_retryCalls (env : BatchEnv) (competencia : JSString) (i : Nat)
    (company : Company) :
    retryCalls (itemEvents env competencia i company) =
      (if (env.processCompany i 1).isOk then [BatchEvent.processCompany i 1]
        else if (env.processCompany i 2).isOk then
          [BatchEvent.processCompany i 1, BatchEvent.gotoServicos i 1,
            BatchEvent.processCompany i 2]
        else
          [BatchEvent.processCompany i 1, BatchEvent.gotoServicos i 1,
            BatchEvent.processCompany i 2, BatchEvent.gotoServicos i 2]) := by
  unfold itemEvents retryCalls
  cases h1 : env.processCompany i 1 <;> cases h2 : env.processCompany i 2 <;>
    cases hd : env.buildOutputDirs i <;> cases ha : env.appendErrorLog i <;>
    simp [Except.isOk, Except.toBool]

/-- C1, counterexample: one work item, both attempts fail and the error log cannot be
written (`appendErrorLog` throws, which `main` catches): after the loop the item is neither
counted as a success nor has an error-log line. -/
theorem runBatch_neither :
    ∃ st, runBatch unwritableLogEnv (lit "10/2026") [acme] = .ok st ∧
      successesOf 0 st.trace = 0 ∧ logLinesOf 0 st.trace = 0 ∧
      successesOf 0 st.trace + logLinesOf 0 st.trace ≠ 1 :=
  ⟨_, rfl, by decide, by decide, by decide⟩

/-- C1, amended: for every work list and every behaviour of `processCompany`, of the reset
navigation, of `buildOutputDirs` and of `appendErrorLog`, the loop of `main` completes, and
each work item has then been counted exactly once, as a success or as a failure, never both
and never neither (the two counters add up to the number of items); it is counted as a success
exactly when one of its two attempts succeeds; and the number of error-log lines appended for
it is one when it is counted as a failure and `buildOutputDirs` and `appendErrorLog` both
succeed for it, and zero otherwise, so never a line for a success and never two lines. -/
theorem runBatch_outcomes (env : BatchEnv) (competencia : JSString) (companies : List Company) :
    ∃ st, runBatch env competencia companies = .ok st ∧
      st.successCount + st.failCount = companies.length ∧
      st.successCount = st.trace.countP isSuccessCounted ∧
      st.failCount = st.trace.countP isFailCounted ∧
      ∀ i, i < companies.length →
        successesOf i st.trace + failuresOf i st.trace = 1 ∧
        (successesOf i st.trace = 1 ↔ itemSucceeds env i = true) ∧
        logLinesOf i st.trace =
          (if failuresOf i st.trace = 1 ∧ (env.buildOutputDirs i).isOk = true ∧
              (env.appendErrorLog i).isOk = true then 1 else 0) := by
  obtain ⟨st, h1, h2, h3, h4, h5⟩ := mainLoop_eq env competencia companies 0
    { successCount := 0, failCount := 0, trace := [] }
  dsimp only at h2 h3 h4 h5
  rw [List.nil_append] at h2
  refine ⟨st, h1, by omega, by rw [h3, h2]; omega, by rw [h4, h2]; omega, ?_⟩
  intro i hi
  obtain ⟨c, _, hc⟩ := eventsOf_batchEvents env competencia companies 0 i (Nat.zero_le _)
    (by omega)
  obtain ⟨k1, k2, k3⟩ := itemEvents_counts env competencia i c
  rw [← hc, ← h2, successesOf_eventsOf] at k1
  rw [← hc, ← h2, failuresOf_eventsOf] at k2
  rw [← hc, ← h2, logLinesOf_eventsOf] at k3
  rw [k1, k2, k3]
  cases hs : itemSucceeds env i <;> cases hd : (env.buildOutputDirs i).isOk <;>
    cases ha : (env.appendErrorLog i).isOk <;> simp

/-- C2, counterexample: one work item whose two attempts fail: the reset navigation to the
services landing page is issued after the first attempt and again after the second, final
attempt. -/
theorem runBatch_reset_after_final :
    ∃ st, runBatch failingEnv (lit "10/2026") [acme] = .ok st ∧
      retryCalls st.trace =
        [BatchEvent.processCompany 0 1, BatchEvent.gotoServicos 0 1,
          BatchEvent.processCompany 0 2, BatchEvent.gotoServicos 0 2] :=
  ⟨_, rfl, by decide⟩

/-- C2, amended: for every work item, `processCompany` is attempted at most 2 times and no
attempt is made after the first one that succeeds; the reset navigation to the services
landing page is issued after every failed attempt, so between the first failed attempt and the
second attempt and also after a failed second attempt, and never after a successful attempt; a
failure of that reset navigation never aborts the item or the run: the loop completes for
every behaviour of the collaborators. -/
theorem runBatch_retry_policy (env : BatchEnv) (competencia : JSString)
    (companies : List Company) :
    ∃ st, runBatch env competencia companies = .ok st ∧
      ∀ i, i < companies.length →
        retryCalls (eventsOf i st.trace) =
          (if (env.processCompany i 1).isOk then [BatchEvent.processCompany i 1]
            else if (env.processCompany i 2).isOk then
              [BatchEvent.processCompany i 1, BatchEvent.gotoServicos i 1,
                BatchEvent.processCompany i 2]
            else
              [BatchEvent.processCompany i 1, BatchEvent.gotoServicos i 1,
                BatchEvent.processCompany i 2, BatchEvent.gotoServicos i 2]) := by
  obtain ⟨st, h1, h2, _⟩ := mainLoop_eq env competencia companies 0
    { successCount := 0, failCount := 0, trace := [] }
  dsimp only at h2
  rw [List.nil_append] at h2
  refine ⟨st, h1, ?_⟩
  intro i hi
  obtain ⟨c, _, hc⟩ := eventsOf_batchEvents env competencia companies 0 i (Nat.zero_le _)
    (by omega)
  rw [h2, hc]
  exact itemEvents_retryCalls env competencia i c

end FgtsDigital
